import Mathlib

/-!
Verification of the model-lifecycle layer of the `ollamadiffuser` repository:
the download status checker (`examples/check_model_download.py`), the download
progress monitor (`examples/monitor_download_progress.py`), the tiered model
registry, and the download orchestrator's byte-count behaviour.

Filesystem state is embedded as a list of (relative path, byte size) pairs for
regular files plus a list of directory names.  Machine arithmetic does not
overflow in the source (Python integers), so sizes are `Nat` and timestamps
are `Rat`.
-/

namespace OllamaDiffuser

/-- On-disk state of a local model directory: the regular files present
(relative path, byte size) and the directories present.  This is what
`Path.rglob` / `Path.exists` observe in the source. -/
structure Disk where
  files : List (String × Nat)
  dirs : List String
deriving Repr, DecidableEq

/-- `(model_path / p).exists()`: true when `p` is a regular file or a
directory under the model path. -/
def Disk.pathExists (d : Disk) (p : String) : Bool :=
  d.files.any (fun q => decide (q.1 = p)) || decide (p ∈ d.dirs)

/-- The size recorded for path `p` when it is a regular file. -/
def Disk.fileSize (d : Disk) (p : String) : Option Nat :=
  List.lookup p d.files

/-- `(model_path / p).stat().st_size` — only called by the source on paths
that exist as regular files; total here with default 0. -/
def Disk.statSize (d : Disk) (p : String) : Nat :=
  (d.fileSize p).getD 0

/-- Remove a path from disk entirely (the "delete one file" experiment). -/
def Disk.eraseFile (d : Disk) (f : String) : Disk :=
  ⟨d.files.filter (fun p => !decide (p.1 = f)), d.dirs.filter (fun s => !decide (s = f))⟩

/-- Overwrite the recorded size of file `f` (the "truncate one file"
experiment); paths and directories are unchanged. -/
def Disk.setFileSize (d : Disk) (f : String) (a : Nat) : Disk :=
  ⟨d.files.map (fun p => if p.1 = f then (p.1, a) else p), d.dirs⟩

/-- `check_model_download.py` line 99:
`has_size_info = any(size > 0 for size in file_sizes.values())`. -/
def hasSizeInfo (fileSizes : List (String × Nat)) : Bool :=
  fileSizes.any (fun p => decide (0 < p.2))

/-- `check_model_download.py` lines 103-109: the expected files absent from
disk, in repository-index order. -/
def missingFiles (fileSizes : List (String × Nat)) (d : Disk) : List String :=
  (fileSizes.filter (fun p => !(d.pathExists p.1))).map Prod.fst

/-- `check_model_download.py` lines 103-112: expected files that are present
but whose on-disk size differs from a positive declared size, as
(path, actual, expected) triples. -/
def incompleteFiles (fileSizes : List (String × Nat)) (d : Disk) :
    List (String × Nat × Nat) :=
  (fileSizes.filter
      (fun p => d.pathExists p.1 && decide (0 < p.2) && !decide (d.statSize p.1 = p.2))).map
    (fun p => (p.1, d.statSize p.1, p.2))

/-- `check_model_download.py` line 157: the essential files required by the
structural fallback check. -/
def essentialFiles : List String := ["model_index.json"]

/-- `check_model_download.py` lines 160-163: essential files absent from
disk. -/
def missingEssential (d : Disk) : List String :=
  essentialFiles.filter (fun f => !(d.pathExists f))

/-- `check_model_download.py` lines 77-87: the local inventory scan —
every regular file under the model path with its relative path and size
(no exclusion of lock files). -/
def localFilesList (d : Disk) : List (String × Nat) := d.files

/-- `check_model_download.py` lines 79-86: the summed size of every regular
file found by the local scan. -/
def localSize (d : Disk) : Nat := (d.files.map Prod.snd).sum

/-- Modelled from the spec: `check_download_integrity` lives in
`ollamadiffuser/core/utils/download_utils.py`, which is not among the
visible sources.  Per §4.3 of the spec it compares the repository file
index against the local inventory: with size information available, every
expected file must be present with matching size (mismatch only counted
when the expected size is positive); without size information it falls
back to the structural check on the required set of essential files. -/
def check_download_integrity (fileSizes : List (String × Nat)) (d : Disk) : Bool :=
  if hasSizeInfo fileSizes then
    fileSizes.all (fun p =>
      d.pathExists p.1 && (decide (p.2 = 0) || decide (d.statSize p.1 = p.2)))
  else
    essentialFiles.all (fun f => d.pathExists f)

/-- The distinct values returned by `check_download_status` in the source:
`False`, `True`, `"needs_config"`, `"incomplete"`, `"downloading"`. -/
inductive PyRet where
  | pyFalse
  | pyTrue
  | needsConfig
  | incomplete
  | downloading
deriving Repr, DecidableEq

/-- `check_model_download.py` lines 21-205, `check_download_status`.
Inputs: the registry's model names, the model name, whether the model
directory exists, the repository file-index result (an exception is caught
and treated as the empty mapping, lines 65-75), the disk state, the result
of `model_manager.is_model_installed` (the manager is not among the visible
sources, so it is an oracle parameter), and whether a pull process for the
model is running (lines 193-205). -/
def check_download_status (registryNames : List String) (name : String)
    (dirExists : Bool) (repo : Except Unit (List (String × Nat))) (d : Disk)
    (isModelInstalled : Bool) (pullRunning : Bool) : PyRet :=
  if name ∉ registryNames then .pyFalse
  else if !dirExists then .pyFalse
  else
    let fileSizes := match repo with
      | .ok fs => fs
      | .error _ => []
    if fileSizes.isEmpty then
      if pullRunning then .downloading else .incomplete
    else if hasSizeInfo fileSizes then
      if (missingFiles fileSizes d).isEmpty && (incompleteFiles fileSizes d).isEmpty then
        if check_download_integrity fileSizes d then
          if isModelInstalled then .pyTrue else .needsConfig
        else .pyFalse
      else .incomplete
    else
      if !(missingEssential d).isEmpty then .incomplete
      else if check_download_integrity fileSizes d then
        if isModelInstalled then .pyTrue else .needsConfig
      else .pyFalse

/-- Python's `name.endswith('.lock')` on a file's path, embedded as a
character-list suffix test.  (A path's basename ends in `.lock` exactly
when the relative path string does, since `.lock` contains no separator.) -/
def endsWithLock (s : String) : Bool := ".lock".data.isSuffixOf s.data

/-- `monitor_download_progress.py` lines 38-45, `get_total_downloaded_size`:
sums the sizes of the regular files under the model path whose name does
not end in `.lock`. -/
def get_total_downloaded_size (d : Disk) : Nat :=
  ((d.files.filter (fun p => !(endsWithLock p.1))).map Prod.snd).sum

/-- `monitor_download_progress.py` lines 47-56, `calculate_speed`:
`time_diff = (now - last_check_time).total_seconds()`; the byte delta is
divided by it only when `time_diff > 0 and last_size > 0`, else 0 is
returned (the "unknown" sentinel — `display_progress` prints a speed only
when it is positive). -/
def calculate_speed (timeDiff : ℚ) (lastSize currentSize : Nat) : ℚ :=
  if 0 < timeDiff ∧ 0 < lastSize then
    ((currentSize : ℚ) - (lastSize : ℚ)) / timeDiff
  else 0

/-- `monitor_download_progress.py` line 76: the fallback expected total used
when no target size is supplied (23 GiB, the typical FLUX.1-dev size). -/
def fluxDevDefaultTarget : Nat := 23 * 1024 * 1024 * 1024

/-- `monitor_download_progress.py` lines 69-80, `estimate_remaining_time`:
`none` is the `"Unknown"` return; otherwise the remaining seconds
`max(0, target - current) / speed` (the source then formats this number as
a string via `format_time`). -/
def estimate_remaining_time (currentSize : Nat) (speed : ℚ)
    (targetSize : Option Nat) : Option ℚ :=
  if speed ≤ 0 then none
  else
    let t := targetSize.getD fluxDevDefaultTarget
    some (max 0 ((t : ℚ) - (currentSize : ℚ)) / speed)

/-- `monitor_download_progress.py` lines 167-171: append the new
(timestamp, size) sample, then drop the oldest sample when more than 10 are
held (`self.size_history.pop(0)`). -/
def updateHistory (h : List (ℚ × Nat)) (s : ℚ × Nat) : List (ℚ × Nat) :=
  let h2 := h ++ [s]
  if 10 < h2.length then h2.tail else h2

/-- The sample history after a monitor run that observed `obs` in order,
starting from the empty history set up in `DownloadMonitor.__init__`. -/
def runMonitorHistory (obs : List (ℚ × Nat)) : List (ℚ × Nat) :=
  obs.foldl updateHistory []

/-- Modelled from the spec: the descriptor record of
`ollamadiffuser/core/config/model_registry.py`, which is not among the
visible sources.  §3 of the spec requires `repo_id` and `model_type`; the
remaining fields do not affect the claims and are elided. -/
structure ModelDescriptor where
  repo_id : String
  model_type : String
  variant : Option String := none
deriving Repr, DecidableEq

/-- Remove every entry for key `n` from one registry tier. -/
def eraseKey (n : String) (t : List (String × ModelDescriptor)) :
    List (String × ModelDescriptor) :=
  t.filter (fun p => !decide (p.1 = n))

/-- Modelled from the spec: the three precedence tiers of the model registry
(§3 RegistryTier, §4.5) — builtin defaults, file-configured overrides,
runtime-registered entries; each tier maps name → descriptor. -/
structure Registry where
  builtin : List (String × ModelDescriptor)
  fileCfg : List (String × ModelDescriptor)
  runtime : List (String × ModelDescriptor)
deriving Repr, DecidableEq

/-- Modelled from the spec: `get(name)` looks up the merged view across
tiers with the runtime tier winning ties and file-configured overriding
builtin (§4.5, §9: "mapping layers walked high-to-low"). -/
def Registry.get (r : Registry) (n : String) : Option ModelDescriptor :=
  match List.lookup n r.runtime with
  | some d => some d
  | none =>
    match List.lookup n r.fileCfg with
    | some d => some d
    | none => List.lookup n r.builtin

/-- Modelled from the spec: `add(name, descriptor)` at the default
`runtime` tier — inserts/overwrites the entry in that tier (§4.5). -/
def Registry.add (r : Registry) (n : String) (d : ModelDescriptor) : Registry :=
  { r with runtime := (n, d) :: eraseKey n r.runtime }

/-- Modelled from the spec: `remove(name)` removes from whichever tier
currently supplies the visible entry and returns `false` when the name is
absent from every tier (§4.5). -/
def Registry.remove (r : Registry) (n : String) : Registry × Bool :=
  if (List.lookup n r.runtime).isSome then
    ({ r with runtime := eraseKey n r.runtime }, true)
  else if (List.lookup n r.fileCfg).isSome then
    ({ r with fileCfg := eraseKey n r.fileCfg }, true)
  else if (List.lookup n r.builtin).isSome then
    ({ r with builtin := eraseKey n r.builtin }, true)
  else (r, false)

/-- Modelled from the spec: `all_names()` — the snapshot of names known to
any tier (§4.5). -/
def Registry.allNames (r : Registry) : List String :=
  ((r.runtime ++ r.fileCfg ++ r.builtin).map Prod.fst).dedup

/-- Modelled from the spec: one observable write of the Download
Orchestrator's delegated transfer — the hub client appends `bytes` to the
partial file at `path` (§4.4: resumable transfers continue from existing
bytes; existing partial files are never deleted within a run). -/
structure WriteEvent where
  path : String
  bytes : Nat
deriving Repr, DecidableEq

/-- Apply one transfer write to the on-disk file-size table: grow the file
in place, or create it. -/
def applyWrite (fs : List (String × Nat)) (e : WriteEvent) : List (String × Nat) :=
  if fs.any (fun p => decide (p.1 = e.path)) then
    fs.map (fun p => if p.1 = e.path then (p.1, p.2 + e.bytes) else p)
  else (e.path, e.bytes) :: fs

/-- Total on-disk byte count of the model directory. -/
def totalBytes (fs : List (String × Nat)) : Nat := (fs.map Prod.snd).sum

/-- Modelled from the spec: a single Download Orchestrator run, observed as
the sequence of transfer writes it delegates (§4.4); the run never deletes
or shrinks a partial file. -/
def runOrchestrator (fs : List (String × Nat)) (es : List WriteEvent) :
    List (String × Nat) :=
  es.foldl applyWrite fs

/-! ### Association-list helper lemmas -/

theorem lookup_map_values {β : Type} (n f : String) (a : β) (l : List (String × β)) :
    List.lookup n (l.map (fun p => if p.1 = f then (p.1, a) else p)) =
      if n = f then (List.lookup n l).map (fun _ => a) else List.lookup n l := by
  induction l with
  | nil => simp
  | cons p t ih =>
    obtain ⟨k, v⟩ := p
    by_cases hkf : k = f
    · subst hkf
      by_cases hnk : n = k
      · subst hnk; simp [List.lookup_cons]
      · have hb : (n == k) = false := beq_false_of_ne hnk
        simp [List.lookup_cons, hb, ih, hnk]
    · by_cases hnk : n = k
      · subst hnk
        simp [List.lookup_cons, hkf]
      · have hb : (n == k) = false := beq_false_of_ne hnk
        simp [List.lookup_cons, hb, ih, hkf, hnk]

theorem lookup_filter_ne {β : Type} (n : String) (l : List (String × β)) :
    List.lookup n (l.filter (fun p => !decide (p.1 = n))) = none := by
  induction l with
  | nil => simp
  | cons p t ih =>
    obtain ⟨k, v⟩ := p
    by_cases hk : k = n
    · subst hk; simpa using ih
    · have hb : (n == k) = false := beq_false_of_ne (fun h => hk h.symm)
      simp [List.filter_cons, hk, List.lookup_cons, hb, ih]

theorem lookup_filter_ne_of_ne {β : Type} (n f : String) (hnf : n ≠ f)
    (l : List (String × β)) :
    List.lookup n (l.filter (fun p => !decide (p.1 = f))) = List.lookup n l := by
  induction l with
  | nil => simp
  | cons p t ih =>
    obtain ⟨k, v⟩ := p
    by_cases hk : k = f
    · subst hk
      have hb : (n == k) = false := beq_false_of_ne hnf
      simp [List.filter_cons, List.lookup_cons, hb, ih]
    · by_cases hnk : n = k
      · subst hnk; simp [List.filter_cons, hk, List.lookup_cons]
      · have hb : (n == k) = false := beq_false_of_ne hnk
        simp [List.filter_cons, hk, List.lookup_cons, hb, ih]

theorem lookup_eq_none_iff {β : Type} (n : String) (l : List (String × β)) :
    List.lookup n l = none ↔ ∀ p ∈ l, p.1 ≠ n := by
  induction l with
  | nil => simp
  | cons p t ih =>
    obtain ⟨k, v⟩ := p
    by_cases hnk : n = k
    · subst hnk; simp [List.lookup_cons]
    · have hb : (n == k) = false := beq_false_of_ne hnk
      simp only [List.lookup_cons, hb, List.mem_cons]
      constructor
      · intro hl p hp
        rcases hp with rfl | hp
        · exact fun hc => hnk hc.symm
        · exact (ih.mp hl) p hp
      · intro hall
        exact ih.mpr fun p hp => hall p (Or.inr hp)

theorem lookup_mem {β : Type} {n : String} {v : β} {l : List (String × β)}
    (h : List.lookup n l = some v) : (n, v) ∈ l := by
  induction l with
  | nil => simp at h
  | cons p t ih =>
    obtain ⟨k, w⟩ := p
    by_cases hnk : n = k
    · subst hnk
      simp only [List.lookup_cons, beq_self_eq_true] at h
      cases h
      exact List.mem_cons_self _ _
    · have hb : (n == k) = false := beq_false_of_ne hnk
      simp only [List.lookup_cons, hb] at h
      exact List.mem_cons_of_mem _ (ih h)

theorem nodup_keys_value_unique {β : Type} {f : String} {c e : β}
    {l : List (String × β)} (hnd : (l.map Prod.fst).Nodup)
    (hc : (f, c) ∈ l) (he : (f, e) ∈ l) : c = e := by
  induction l with
  | nil => simp at hc
  | cons p t ih =>
    simp only [List.map_cons, List.nodup_cons] at hnd
    rcases List.mem_cons.mp hc with rfl | hc'
    · rcases List.mem_cons.mp he with he2 | he'
      · exact (congrArg Prod.snd he2).symm
      · exact absurd (List.mem_map_of_mem Prod.fst he') (by simpa using hnd.1)
    · rcases List.mem_cons.mp he with rfl | he'
      · exact absurd (List.mem_map_of_mem Prod.fst hc') (by simpa using hnd.1)
      · exact ih hnd.2 hc' he'

theorem eq_singleton_of_nodup_mem {α : Type} {l : List α} {v : α}
    (hn : l.Nodup) (h : ∀ x, x ∈ l ↔ x = v) : l = [v] := by
  cases l with
  | nil => exact absurd ((h v).mpr rfl) (by simp)
  | cons x xs =>
    have hx : x = v := (h x).mp (List.mem_cons_self _ _)
    subst hx
    have hxs : xs = [] := by
      rw [List.eq_nil_iff_forall_not_mem]
      intro a ha
      have hav : a = x := (h a).mp (List.mem_cons_of_mem _ ha)
      subst hav
      exact (List.nodup_cons.mp hn).1 ha
    rw [hxs]

/-! ### Disk lemmas -/

theorem pathExists_of_fileSize_some {d : Disk} {f : String} {s : Nat}
    (h : d.fileSize f = some s) : d.pathExists f = true := by
  have hm : (f, s) ∈ d.files := lookup_mem h
  simp only [Disk.pathExists, Bool.or_eq_true, List.any_eq_true]
  exact Or.inl ⟨(f, s), hm, by simp⟩

theorem pathExists_eraseFile_self (d : Disk) (f : String) :
    (d.eraseFile f).pathExists f = false := by
  simp [Disk.pathExists, Disk.eraseFile, List.mem_filter]

theorem pathExists_eraseFile_ne (d : Disk) {f g : String} (h : g ≠ f) :
    (d.eraseFile f).pathExists g = d.pathExists g := by
  simp only [Disk.pathExists, Disk.eraseFile]
  congr 1
  · rcases ha : d.files.any (fun q => decide (q.1 = g)) with _ | _
    · simp only [List.any_eq_false, decide_eq_false_iff_not] at ha ⊢
      intro p hp
      exact ha p (List.mem_of_mem_filter hp)
    · simp only [List.any_eq_true, decide_eq_true_eq] at ha ⊢
      obtain ⟨p, hp, hpg⟩ := ha
      refine ⟨p, List.mem_filter.mpr ⟨hp, ?_⟩, hpg⟩
      simp [hpg, h]
  · simp only [decide_eq_decide, List.mem_filter, Bool.not_eq_eq_eq_not,
      Bool.not_true, decide_eq_false_iff_not]
    exact ⟨fun hm => hm.1, fun hm => ⟨hm, h⟩⟩

theorem pathExists_setFileSize (d : Disk) (f : String) (a : Nat) (g : String) :
    (d.setFileSize f a).pathExists g = d.pathExists g := by
  simp only [Disk.pathExists, Disk.setFileSize]
  congr 1
  rw [List.any_map]
  congr 1
  funext p
  by_cases hp : p.1 = f <;> simp [hp]

theorem statSize_setFileSize_self {d : Disk} {f : String} (a : Nat)
    {s : Nat} (h : d.fileSize f = some s) :
    (d.setFileSize f a).statSize f = a := by
  simp only [Disk.statSize, Disk.fileSize, Disk.setFileSize] at *
  rw [lookup_map_values, if_pos rfl, h]
  rfl

theorem statSize_setFileSize_ne (d : Disk) {f g : String} (a : Nat) (h : g ≠ f) :
    (d.setFileSize f a).statSize g = d.statSize g := by
  simp only [Disk.statSize, Disk.fileSize, Disk.setFileSize]
  rw [lookup_map_values, if_neg h]

/-! ### Missing / size-mismatch list characterizations -/

theorem mem_missingFiles_iff (fileSizes : List (String × Nat)) (d : Disk)
    (f : String) :
    f ∈ missingFiles fileSizes d ↔
      (∃ s, (f, s) ∈ fileSizes) ∧ d.pathExists f = false := by
  simp only [missingFiles, List.mem_map, List.mem_filter, Bool.not_eq_eq_eq_not,
    Bool.not_true]
  constructor
  · rintro ⟨⟨g, s⟩, ⟨hm, hne⟩, rfl⟩
    exact ⟨⟨s, hm⟩, hne⟩
  · rintro ⟨⟨s, hm⟩, hne⟩
    exact ⟨(f, s), ⟨hm, hne⟩, rfl⟩

theorem mem_incompleteFiles_iff (fileSizes : List (String × Nat)) (d : Disk)
    (f : String) (a e : Nat) :
    (f, a, e) ∈ incompleteFiles fileSizes d ↔
      (f, e) ∈ fileSizes ∧ d.pathExists f = true ∧ d.statSize f = a ∧
        0 < e ∧ a ≠ e := by
  simp only [incompleteFiles, List.mem_map, List.mem_filter, Bool.and_eq_true,
    decide_eq_true_eq, Bool.not_eq_eq_eq_not, Bool.not_true,
    decide_eq_false_iff_not]
  constructor
  · rintro ⟨⟨g, s⟩, ⟨hm, ⟨hex, hpos⟩, hne⟩, heq⟩
    injection heq with h1 hrest
    injection hrest with h2 h3
    subst h1; subst h3
    exact ⟨hm, hex, h2, hpos, fun hc => hne (h2 ▸ hc)⟩
  · rintro ⟨hm, hex, hstat, hpos, hane⟩
    exact ⟨(f, e), ⟨hm, ⟨hex, hpos⟩, fun hc => hane (hstat ▸ hc)⟩, by rw [hstat]⟩

theorem missingFiles_nodup {fileSizes : List (String × Nat)} (d : Disk)
    (h : (fileSizes.map Prod.fst).Nodup) : (missingFiles fileSizes d).Nodup := by
  exact ((List.filter_sublist fileSizes).map Prod.fst).nodup h

theorem incompleteFiles_nodup {fileSizes : List (String × Nat)} (d : Disk)
    (h : (fileSizes.map Prod.fst).Nodup) : (incompleteFiles fileSizes d).Nodup := by
  apply List.Nodup.of_map (fun t => t.1)
  rw [incompleteFiles, List.map_map]
  exact ((List.filter_sublist fileSizes).map _).nodup h

theorem missingFiles_eq_nil {fileSizes : List (String × Nat)} {d : Disk}
    (hcomp : ∀ p ∈ fileSizes, d.pathExists p.1 = true) :
    missingFiles fileSizes d = [] := by
  rw [missingFiles, List.filter_eq_nil_iff.mpr, List.map_nil]
  intro p hp
  simp [hcomp p hp]

theorem incompleteFiles_eq_nil {fileSizes : List (String × Nat)} {d : Disk}
    (hcomp : ∀ p ∈ fileSizes, 0 < p.2 → d.statSize p.1 = p.2) :
    incompleteFiles fileSizes d = [] := by
  rw [incompleteFiles, List.filter_eq_nil_iff.mpr, List.map_nil]
  intro p hp
  by_cases hz : 0 < p.2
  · simp [hcomp p hp hz]
  · simp [hz]

theorem integrity_true_of_complete {fileSizes : List (String × Nat)} {d : Disk}
    (hs : hasSizeInfo fileSizes = true)
    (hcomp : ∀ p ∈ fileSizes, d.pathExists p.1 = true ∧
      (0 < p.2 → d.statSize p.1 = p.2)) :
    check_download_integrity fileSizes d = true := by
  rw [check_download_integrity, if_pos hs, List.all_eq_true]
  intro p hp
  obtain ⟨hex, hsz⟩ := hcomp p hp
  rcases Nat.eq_zero_or_pos p.2 with hz | hz
  · simp [hex, hz]
  · simp [hex, hsz hz]

theorem isEmpty_false_of_hasSizeInfo {fileSizes : List (String × Nat)}
    (hs : hasSizeInfo fileSizes = true) : fileSizes.isEmpty = false := by
  cases fileSizes with
  | nil => simp [hasSizeInfo] at hs
  | cons p t => rfl

theorem status_complete_eval {fileSizes : List (String × Nat)} {d : Disk}
    {reg : List String} {name : String} (inst pull : Bool)
    (hreg : name ∈ reg) (hs : hasSizeInfo fileSizes = true)
    (hcomp : ∀ p ∈ fileSizes, d.pathExists p.1 = true ∧
      (0 < p.2 → d.statSize p.1 = p.2)) :
    check_download_status reg name true (.ok fileSizes) d inst pull =
      (if inst then .pyTrue else .needsConfig) := by
  have hmiss : missingFiles fileSizes d = [] :=
    missingFiles_eq_nil (fun p hp => (hcomp p hp).1)
  have hinc : incompleteFiles fileSizes d = [] :=
    incompleteFiles_eq_nil (fun p hp => (hcomp p hp).2)
  have hint := integrity_true_of_complete hs hcomp
  simp [check_download_status, hreg, isEmpty_false_of_hasSizeInfo hs, hs,
    hmiss, hinc, hint]

theorem missingFiles_eraseFile {fileSizes : List (String × Nat)} {d : Disk}
    (hnd : (fileSizes.map Prod.fst).Nodup)
    (hcomp : ∀ p ∈ fileSizes, d.fileSize p.1 = some p.2)
    {f : String} {e : Nat} (hf : (f, e) ∈ fileSizes) :
    missingFiles fileSizes (d.eraseFile f) = [f] := by
  apply eq_singleton_of_nodup_mem (missingFiles_nodup _ hnd)
  intro x
  rw [mem_missingFiles_iff]
  constructor
  · rintro ⟨⟨s, hm⟩, hne⟩
    by_contra hx
    rw [pathExists_eraseFile_ne d hx,
      pathExists_of_fileSize_some (hcomp (x, s) hm)] at hne
    cases hne
  · rintro rfl
    exact ⟨⟨e, hf⟩, pathExists_eraseFile_self d _⟩

theorem incompleteFiles_setFileSize {fileSizes : List (String × Nat)} {d : Disk}
    (hnd : (fileSizes.map Prod.fst).Nodup)
    (hcomp : ∀ p ∈ fileSizes, d.fileSize p.1 = some p.2)
    {f : String} {e a : Nat} (hf : (f, e) ∈ fileSizes)
    (hepos : 0 < e) (hane : a ≠ e) :
    incompleteFiles fileSizes (d.setFileSize f a) = [(f, a, e)] := by
  apply eq_singleton_of_nodup_mem (incompleteFiles_nodup _ hnd)
  rintro ⟨g, b, c⟩
  rw [mem_incompleteFiles_iff]
  constructor
  · rintro ⟨hm, _, hstat, _, hbc⟩
    by_cases hgf : g = f
    · subst hgf
      have hce : c = e := nodup_keys_value_unique hnd hm hf
      subst hce
      rw [statSize_setFileSize_self a (hcomp (g, c) hm)] at hstat
      rw [hstat]
    · have hfs : d.fileSize g = some c := hcomp (g, c) hm
      rw [statSize_setFileSize_ne d a hgf] at hstat
      have hdc : d.statSize g = c := by simp [Disk.statSize, hfs]
      rw [hdc] at hstat
      exact absurd hstat.symm hbc
  · rintro heq
    injection heq with h1 hrest
    injection hrest with h2 h3
    subst h1; subst h2; subst h3
    refine ⟨hf, ?_, statSize_setFileSize_self _ (hcomp (g, c) hf), hepos, hane⟩
    rw [pathExists_setFileSize]
    exact pathExists_of_fileSize_some (hcomp (g, c) hf)

/-! ### Claims -/

/-- C1: when the repository file index provides size information
(`has_size_info` true), the status checker classifies every expected file
as the spec states: all expected files present with matching sizes gives
the Complete outcome (ready or needs-config, by configuration); an absent
expected file is listed in the missing list, and exactly those; a present
expected file with positive declared size and differing actual size is
listed in the size-mismatch list as a (path, actual, expected) triple, and
exactly those; removing one file from a complete installation makes the
missing list exactly that file; truncating one file makes the mismatch
list exactly that triple; a declared size of 0 is never size-mismatched. -/
theorem integrity_classification_with_size_info
    (fileSizes : List (String × Nat)) (d : Disk) (reg : List String)
    (name : String) (inst pull : Bool)
    (hs : hasSizeInfo fileSizes = true) :
    (∀ f, f ∈ missingFiles fileSizes d ↔
        (∃ s, (f, s) ∈ fileSizes) ∧ d.pathExists f = false) ∧
    (∀ f a e, (f, a, e) ∈ incompleteFiles fileSizes d ↔
        (f, e) ∈ fileSizes ∧ d.pathExists f = true ∧ d.statSize f = a ∧
          0 < e ∧ a ≠ e) ∧
    (∀ f a, (f, a, 0) ∉ incompleteFiles fileSizes d) ∧
    ((∀ p ∈ fileSizes, d.pathExists p.1 = true ∧
        (0 < p.2 → d.statSize p.1 = p.2)) →
      name ∈ reg →
      missingFiles fileSizes d = [] ∧ incompleteFiles fileSizes d = [] ∧
        check_download_status reg name true (.ok fileSizes) d inst pull =
          (if inst then .pyTrue else .needsConfig)) ∧
    ((fileSizes.map Prod.fst).Nodup →
      (∀ p ∈ fileSizes, d.fileSize p.1 = some p.2) →
      ∀ f e, (f, e) ∈ fileSizes →
        missingFiles fileSizes (d.eraseFile f) = [f] ∧
        ∀ a, 0 < e → a ≠ e →
          incompleteFiles fileSizes (d.setFileSize f a) = [(f, a, e)]) := by
  refine ⟨mem_missingFiles_iff fileSizes d,
    mem_incompleteFiles_iff fileSizes d, ?_, ?_, ?_⟩
  · intro f a hmem
    have := (mem_incompleteFiles_iff fileSizes d f a 0).mp hmem
    exact absurd this.2.2.2.1 (lt_irrefl 0)
  · intro hcomp hreg
    exact ⟨missingFiles_eq_nil (fun p hp => (hcomp p hp).1),
      incompleteFiles_eq_nil (fun p hp => (hcomp p hp).2),
      status_complete_eval inst pull hreg hs hcomp⟩
  · intro hnd hcomp f e hf
    exact ⟨missingFiles_eraseFile hnd hcomp hf,
      fun a hepos hane => incompleteFiles_setFileSize hnd hcomp hf hepos hane⟩

/-- Witness for C1 at a concrete two-file repository index. -/
theorem integrity_classification_with_size_info_witness :
    hasSizeInfo [("a.bin", 100), ("b.bin", 0)] = true ∧
    check_download_status ["m"] "m" true (.ok [("a.bin", 100), ("b.bin", 0)])
        ⟨[("a.bin", 100), ("b.bin", 0)], []⟩ true false = .pyTrue ∧
    missingFiles [("a.bin", 100), ("b.bin", 0)]
        (Disk.eraseFile ⟨[("a.bin", 100), ("b.bin", 0)], []⟩ "a.bin") = ["a.bin"] ∧
    incompleteFiles [("a.bin", 100), ("b.bin", 0)]
        (Disk.setFileSize ⟨[("a.bin", 100), ("b.bin", 0)], []⟩ "a.bin" 99) =
      [("a.bin", 99, 100)] := by
  have h := integrity_classification_with_size_info
    [("a.bin", 100), ("b.bin", 0)] ⟨[("a.bin", 100), ("b.bin", 0)], []⟩
    ["m"] "m" true false (by decide)
  refine ⟨by decide, (h.2.2.2.1 (by decide) (by decide)).2.2, ?_, ?_⟩
  · exact (h.2.2.2.2 (by decide) (by decide) "a.bin" 100 (by decide)).1
  · exact (h.2.2.2.2 (by decide) (by decide) "a.bin" 100 (by decide)).2 99
      (by decide) (by decide)

/-- C2: size-information availability is `any size > 0`; with no positive
size, the checker falls back to the structural check and reports the
files-complete outcome (ready or needs-config) exactly when every element
of the required structural set (the essential files of the model family)
is present, even though every declared size is zero; otherwise it reports
incomplete. -/
theorem structural_fallback_without_size_info
    (fileSizes : List (String × Nat)) (d : Disk) (reg : List String)
    (name : String) (inst pull : Bool)
    (hne : fileSizes ≠ [])
    (hreg : name ∈ reg)
    (hs : hasSizeInfo fileSizes = false) :
    (∀ fs' : List (String × Nat),
        hasSizeInfo fs' = false ↔ ∀ p ∈ fs', p.2 = 0) ∧
    ((∀ f ∈ essentialFiles, d.pathExists f = true) →
      check_download_status reg name true (.ok fileSizes) d inst pull =
        (if inst then .pyTrue else .needsConfig)) ∧
    ((¬ ∀ f ∈ essentialFiles, d.pathExists f = true) →
      check_download_status reg name true (.ok fileSizes) d inst pull =
        .incomplete) := by
  have hisE : fileSizes.isEmpty = false := by
    cases fileSizes with
    | nil => exact absurd rfl hne
    | cons p t => rfl
  refine ⟨?_, ?_, ?_⟩
  · intro fs'
    rw [hasSizeInfo, List.any_eq_false]
    constructor
    · intro h p hp
      have := h p hp
      simpa [Nat.pos_iff_ne_zero] using this
    · intro h p hp
      simp [h p hp]
  · intro hall
    have hme : missingEssential d = [] := by
      rw [missingEssential, List.filter_eq_nil_iff.mpr]
      intro f hf
      simp [hall f hf]
    have hint : check_download_integrity fileSizes d = true := by
      rw [check_download_integrity, if_neg (by simp [hs]), List.all_eq_true]
      exact hall
    simp [check_download_status, hreg, hisE, hs, hme, hint]
  · intro hnall
    have hpe : d.pathExists "model_index.json" = false := by
      simpa [essentialFiles] using hnall
    have hme : missingEssential d = ["model_index.json"] := by
      simp [missingEssential, essentialFiles, hpe]
    simp [check_download_status, hreg, hisE, hs, hme]

/-- Witness for C2: an all-zero-size index (gated repository) with the
required structural elements on disk is classified files-complete. -/
theorem structural_fallback_without_size_info_witness :
    hasSizeInfo [("model_index.json", 0), ("x.bin", 0)] = false ∧
    check_download_status ["m"] "m" true
        (.ok [("model_index.json", 0), ("x.bin", 0)])
        ⟨[("model_index.json", 10)], ["transformer"]⟩ true false = .pyTrue := by
  have h := structural_fallback_without_size_info
    [("model_index.json", 0), ("x.bin", 0)]
    ⟨[("model_index.json", 10)], ["transformer"]⟩ ["m"] "m" true false
    (by decide) (by decide) (by decide)
  exact ⟨by decide, h.2.1 (by decide)⟩

/-- C4: a repository-index error is caught (the embedded checker consumes
the `Except` and continues with the empty mapping), and an empty index is
treated as "size metadata unavailable": no file comparison happens, the
outcome is downloading or incomplete, and never the complete/ready
outcomes. -/
theorem empty_or_error_index_never_complete
    (reg : List String) (name : String) (d : Disk) (inst pull : Bool)
    (hreg : name ∈ reg) :
    check_download_status reg name true (.error ()) d inst pull =
        (if pull then .downloading else .incomplete) ∧
    check_download_status reg name true (.ok []) d inst pull =
        (if pull then .downloading else .incomplete) ∧
    check_download_status reg name true (.error ()) d inst pull ≠ .pyTrue ∧
    check_download_status reg name true (.error ()) d inst pull ≠ .needsConfig ∧
    check_download_status reg name true (.ok []) d inst pull ≠ .pyTrue ∧
    check_download_status reg name true (.ok []) d inst pull ≠ .needsConfig := by
  have h1 : check_download_status reg name true (.error ()) d inst pull =
      (if pull then .downloading else .incomplete) := by
    simp [check_download_status, hreg]
  have h2 : check_download_status reg name true (.ok []) d inst pull =
      (if pull then .downloading else .incomplete) := by
    simp [check_download_status, hreg]
  refine ⟨h1, h2, ?_, ?_, ?_, ?_⟩ <;> first
    | (rw [h1]; cases pull <;> simp)
    | (rw [h2]; cases pull <;> simp)

/-- Witness for C4 at a concrete registry and disk. -/
theorem empty_or_error_index_never_complete_witness :
    check_download_status ["m"] "m" true (.error ())
        ⟨[("a.bin", 5)], []⟩ true true = .downloading ∧
    check_download_status ["m"] "m" true (.ok [])
        ⟨[("a.bin", 5)], []⟩ true false = .incomplete := by
  have hT := empty_or_error_index_never_complete ["m"] "m"
    ⟨[("a.bin", 5)], []⟩ true true (by decide)
  have hF := empty_or_error_index_never_complete ["m"] "m"
    ⟨[("a.bin", 5)], []⟩ true false (by decide)
  exact ⟨hT.1, hF.2.1⟩

/-- C5: the progress snapshot never divides by zero — with no prior sample
(`last_size == 0`) or zero elapsed time the throughput is the unknown
sentinel 0 rather than a quotient, and the ETA is the unknown result
whenever throughput is zero or less; a positive throughput yields the
remaining-bytes / throughput quotient. -/
theorem progress_snapshot_no_division_by_zero :
    (∀ (timeDiff : ℚ) (lastSize currentSize : Nat),
        timeDiff = 0 ∨ lastSize = 0 →
          calculate_speed timeDiff lastSize currentSize = 0) ∧
    (∀ (currentSize : Nat) (speed : ℚ) (targetSize : Option Nat),
        speed ≤ 0 → estimate_remaining_time currentSize speed targetSize = none) ∧
    (∀ (currentSize : Nat) (speed : ℚ) (targetSize : Option Nat),
        0 < speed → estimate_remaining_time currentSize speed targetSize =
          some (max 0 ((targetSize.getD fluxDevDefaultTarget : ℚ) -
            (currentSize : ℚ)) / speed)) := by
  refine ⟨?_, ?_, ?_⟩
  · intro timeDiff lastSize currentSize h
    rcases h with rfl | rfl
    · simp [calculate_speed]
    · simp [calculate_speed]
  · intro currentSize speed targetSize h
    simp [estimate_remaining_time, h]
  · intro currentSize speed targetSize h
    rw [estimate_remaining_time, if_neg (not_le.mpr h)]

/-- Witness for C5 at concrete snapshots. -/
theorem progress_snapshot_no_division_by_zero_witness :
    calculate_speed 0 50 70 = 0 ∧
    calculate_speed 5 0 70 = 0 ∧
    estimate_remaining_time 100 0 (some 200) = none ∧
    estimate_remaining_time 100 2 (some 200) = some 50 := by
  have h := progress_snapshot_no_division_by_zero
  refine ⟨h.1 0 50 70 (Or.inl rfl), h.1 5 0 70 (Or.inr rfl),
    h.2.1 100 0 (some 200) le_rfl, ?_⟩
  rw [h.2.2 100 2 (some 200) (by norm_num)]
  norm_num

theorem status_pyTrue_inv (reg : List String) (name : String) (dir : Bool)
    (repo : Except Unit (List (String × Nat))) (d : Disk) (inst pull : Bool)
    (h : check_download_status reg name dir repo d inst pull = .pyTrue) :
    inst = true ∧ name ∈ reg := by
  by_cases hr : name ∈ reg
  · refine ⟨?_, hr⟩
    cases inst with
    | true => rfl
    | false =>
      exfalso
      cases repo with
      | error u =>
        cases dir <;> cases pull <;> simp [check_download_status, hr] at h
      | ok fs =>
        cases dir <;> cases pull <;>
          rcases hie : fs.isEmpty with _ | _ <;>
          rcases hsi : hasSizeInfo fs with _ | _ <;>
          rcases hmi : ((missingFiles fs d).isEmpty &&
            (incompleteFiles fs d).isEmpty) with _ | _ <;>
          rcases hci : check_download_integrity fs d with _ | _ <;>
          rcases hme : (missingEssential d).isEmpty with _ | _ <;>
          simp [check_download_status, hr, hie, hsi, hmi, hci, hme] at h
  · simp [check_download_status, hr] at h

theorem status_not_in_registry (reg : List String) (name : String) (dir : Bool)
    (repo : Except Unit (List (String × Nat))) (d : Disk) (inst pull : Bool)
    (hr : name ∉ reg) :
    check_download_status reg name dir repo d inst pull = .pyFalse := by
  simp [check_download_status, hr]

/-- C6 counterexample: a model whose single expected file is fully present
with matching size and which passes the integrity check, but whose name the
registry does not recognize, is reported `False` ("not downloaded") by the
early registry gate — not the needs-configuration outcome the claim
states. -/
theorem unregistered_complete_model_counterexample :
    missingFiles [("a.bin", 100)] ⟨[("a.bin", 100)], []⟩ = [] ∧
    incompleteFiles [("a.bin", 100)] ⟨[("a.bin", 100)], []⟩ = [] ∧
    check_download_integrity [("a.bin", 100)] ⟨[("a.bin", 100)], []⟩ = true ∧
    check_download_status [] "m" true (.ok [("a.bin", 100)])
        ⟨[("a.bin", 100)], []⟩ false false = .pyFalse ∧
    check_download_status [] "m" true (.ok [("a.bin", 100)])
        ⟨[("a.bin", 100)], []⟩ false false ≠ .needsConfig := by
  refine ⟨?_, ?_, ?_, ?_, ?_⟩ <;> decide

/-- C6 (amended): a name the registry does not recognize is rejected up
front with `False` regardless of file completeness; for a recognized name
with complete matching files, the result is ready exactly when the manager
reports the model installed and needs-config otherwise; the ready outcome
requires both the installed check and registry recognition. -/
theorem ready_requires_registry_and_configuration
    (reg : List String) (name : String) (fileSizes : List (String × Nat))
    (d : Disk) (inst pull : Bool)
    (hreg : name ∈ reg)
    (hs : hasSizeInfo fileSizes = true)
    (hcomp : ∀ p ∈ fileSizes, d.pathExists p.1 = true ∧
      (0 < p.2 → d.statSize p.1 = p.2)) :
    check_download_status reg name true (.ok fileSizes) d inst pull =
      (if inst then .pyTrue else .needsConfig) ∧
    (∀ (reg' : List String) (name' : String) (dir : Bool)
        (repo : Except Unit (List (String × Nat))) (d' : Disk)
        (inst' pull' : Bool),
      check_download_status reg' name' dir repo d' inst' pull' = .pyTrue →
        inst' = true ∧ name' ∈ reg') ∧
    (∀ (reg' : List String) (name' : String) (dir : Bool)
        (repo : Except Unit (List (String × Nat))) (d' : Disk)
        (inst' pull' : Bool),
      name' ∉ reg' →
        check_download_status reg' name' dir repo d' inst' pull' = .pyFalse) := by
  exact ⟨status_complete_eval inst pull hreg hs hcomp,
    fun reg' name' dir repo d' inst' pull' h =>
      status_pyTrue_inv reg' name' dir repo d' inst' pull' h,
    fun reg' name' dir repo d' inst' pull' h =>
      status_not_in_registry reg' name' dir repo d' inst' pull' h⟩

/-- Witness for C6 (amended) at a concrete registry and disk. -/
theorem ready_requires_registry_and_configuration_witness :
    check_download_status ["m"] "m" true (.ok [("a.bin", 100)])
        ⟨[("a.bin", 100)], []⟩ false false = .needsConfig ∧
    check_download_status ["m"] "m" true (.ok [("a.bin", 100)])
        ⟨[("a.bin", 100)], []⟩ true false = .pyTrue := by
  have h0 := ready_requires_registry_and_configuration ["m"] "m"
    [("a.bin", 100)] ⟨[("a.bin", 100)], []⟩ false false
    (by decide) (by decide) (by decide)
  have h1 := ready_requires_registry_and_configuration ["m"] "m"
    [("a.bin", 100)] ⟨[("a.bin", 100)], []⟩ true false
    (by decide) (by decide) (by decide)
  exact ⟨h0.1, h1.1⟩

theorem sum_filter_partition (l : List (String × Nat)) (p : String × Nat → Bool) :
    ((l.filter (fun x => !(p x))).map Prod.snd).sum +
      ((l.filter p).map Prod.snd).sum = (l.map Prod.snd).sum := by
  induction l with
  | nil => rfl
  | cons a t ih =>
    by_cases hp : p a = true
    · simp [List.filter_cons, hp]
      omega
    · have hp' : p a = false := by simpa using hp
      simp [List.filter_cons, hp']
      omega

/-- C9 counterexample: the status checker's local scan (lines 77-88 of
`check_model_download.py`) counts a `.lock` file in both its file list and
its reported total, while the monitor's scan excludes it — so a lock file
does contribute to a reported count and size, contradicting the claim. -/
theorem lock_file_counted_by_status_scan :
    endsWithLock "model.lock" = true ∧
    localFilesList ⟨[("model.lock", 5)], []⟩ = [("model.lock", 5)] ∧
    localSize ⟨[("model.lock", 5)], []⟩ = 5 ∧
    get_total_downloaded_size ⟨[("model.lock", 5)], []⟩ = 0 := by
  refine ⟨?_, ?_, ?_, ?_⟩ <;> decide

/-- C9 (amended): the monitor's scan excludes `.lock` files — its total
plus the summed size of the `.lock` files equals the status checker's
total, and a disk holding only the `.lock` files has monitor total 0 —
while the status checker's scan enumerates every regular file, lock files
included, with `localFilesList`/`localSize` ranging over all of them. -/
theorem inventory_scan_lock_partition (d : Disk) :
    get_total_downloaded_size d +
      ((d.files.filter (fun p => endsWithLock p.1)).map Prod.snd).sum =
      localSize d ∧
    get_total_downloaded_size
      ⟨d.files.filter (fun p => endsWithLock p.1), d.dirs⟩ = 0 ∧
    localSize ⟨d.files.filter (fun p => endsWithLock p.1), d.dirs⟩ =
      ((d.files.filter (fun p => endsWithLock p.1)).map Prod.snd).sum := by
  refine ⟨sum_filter_partition d.files _, ?_, rfl⟩
  rw [get_total_downloaded_size]
  simp only [List.filter_filter]
  rw [List.filter_eq_nil_iff.mpr, List.map_nil, List.sum_nil]
  intro a _
  by_cases h : endsWithLock a.1 = true <;> simp [h]

theorem runMonitorHistory_append (l : List (ℚ × Nat)) (s : ℚ × Nat) :
    runMonitorHistory (l ++ [s]) = updateHistory (runMonitorHistory l) s := by
  rw [runMonitorHistory, runMonitorHistory, List.foldl_append, List.foldl_cons,
    List.foldl_nil]

theorem runMonitorHistory_eq (obs : List (ℚ × Nat)) :
    runMonitorHistory obs = obs.drop (obs.length - 10) := by
  induction obs using List.reverseRecOn with
  | nil => rfl
  | append_singleton l s ih =>
    rw [runMonitorHistory_append, ih, updateHistory]
    by_cases hlen : l.length < 10
    · have h1 : l.length - 10 = 0 := by omega
      have hif : ¬ 10 < (l.drop (l.length - 10) ++ [s]).length := by
        simp only [List.length_append, List.length_drop, List.length_singleton]
        omega
      rw [if_neg hif, h1, List.drop_zero]
      have h2 : (l ++ [s]).length - 10 = 0 := by
        simp only [List.length_append, List.length_singleton]
        omega
      rw [h2, List.drop_zero]
    · have hge : 10 ≤ l.length := by omega
      have hif : 10 < (l.drop (l.length - 10) ++ [s]).length := by
        simp only [List.length_append, List.length_drop, List.length_singleton]
        omega
      rw [if_pos hif]
      have hne : l.drop (l.length - 10) ≠ [] := by
        intro hc
        have := congrArg List.length hc
        simp only [List.length_drop, List.length_nil] at this
        omega
      rw [List.tail_append_singleton_of_ne_nil hne, List.tail_drop]
      have h3 : (l ++ [s]).length - 10 = l.length - 10 + 1 := by
        simp only [List.length_append, List.length_singleton]
        omega
      rw [h3, List.drop_append_of_le_length (by omega)]

/-- C10: the monitor's sample history is a bounded sliding window — after
any sequence of progress updates it equals the last (at most 10)
observations in order, so its length never exceeds 10 and the oldest
sample is discarded first. -/
theorem history_bounded_sliding_window (obs : List (ℚ × Nat)) :
    runMonitorHistory obs = obs.drop (obs.length - 10) ∧
    (runMonitorHistory obs).length ≤ 10 := by
  refine ⟨runMonitorHistory_eq obs, ?_⟩
  rw [runMonitorHistory_eq obs, List.length_drop]
  omega

/-- C3: registry lookup respects tier precedence — a file-configured entry
overrides a builtin entry for the same name (so `get` returns the
file-configured descriptor and its `repo_id`), and a runtime entry
overrides both. -/
theorem registry_tier_precedence (r : Registry) (n : String)
    (db df dr : ModelDescriptor) :
    (List.lookup n r.builtin = some db → List.lookup n r.fileCfg = some df →
      List.lookup n r.runtime = none →
      r.get n = some df ∧
        (r.get n).map ModelDescriptor.repo_id = some df.repo_id) ∧
    (List.lookup n r.runtime = some dr → r.get n = some dr) := by
  constructor
  · intro hb hf hrt
    have hg : r.get n = some df := by simp [Registry.get, hrt, hf]
    exact ⟨hg, by rw [hg]; rfl⟩
  · intro hrt
    simp [Registry.get, hrt]

/-- Witness for C3 at a concrete three-tier registry. -/
theorem registry_tier_precedence_witness :
    Registry.get ⟨[("m", ⟨"org/builtin", "x", none⟩)],
        [("m", ⟨"org/file", "x", none⟩)], []⟩ "m" =
      some ⟨"org/file", "x", none⟩ ∧
    Registry.get ⟨[("m", ⟨"org/builtin", "x", none⟩)],
        [("m", ⟨"org/file", "x", none⟩)], [("m", ⟨"org/rt", "x", none⟩)]⟩ "m" =
      some ⟨"org/rt", "x", none⟩ := by
  have h1 := (registry_tier_precedence
    ⟨[("m", ⟨"org/builtin", "x", none⟩)], [("m", ⟨"org/file", "x", none⟩)], []⟩
    "m" ⟨"org/builtin", "x", none⟩ ⟨"org/file", "x", none⟩
    ⟨"org/rt", "x", none⟩).1 (by decide) (by decide) (by decide)
  have h2 := (registry_tier_precedence
    ⟨[("m", ⟨"org/builtin", "x", none⟩)], [("m", ⟨"org/file", "x", none⟩)],
      [("m", ⟨"org/rt", "x", none⟩)]⟩
    "m" ⟨"org/builtin", "x", none⟩ ⟨"org/file", "x", none⟩
    ⟨"org/rt", "x", none⟩).2 (by decide)
  exact ⟨h1.1, h2⟩

theorem get_eq_none_iff (r : Registry) (n : String) :
    r.get n = none ↔ List.lookup n r.runtime = none ∧
      List.lookup n r.fileCfg = none ∧ List.lookup n r.builtin = none := by
  cases h1 : List.lookup n r.runtime <;>
    cases h2 : List.lookup n r.fileCfg <;>
    simp [Registry.get, h1, h2]

theorem eraseKey_add_runtime (r : Registry) (n : String) (d : ModelDescriptor) :
    eraseKey n (r.add n d).runtime = eraseKey n r.runtime := by
  rw [Registry.add]
  simp [eraseKey, List.filter_cons, List.filter_filter]

/-- C8: adding a name (runtime tier) and then removing it restores the
not-found state when the name was absent before: `get` reports not found,
the name is gone from the name listing, `remove` reports success on the
added entry, and `remove` on a registry lacking the name in every tier
returns false. -/
theorem add_remove_restores_not_found (r : Registry) (n : String)
    (d : ModelDescriptor) (h : r.get n = none) :
    ((r.add n d).remove n).1.get n = none ∧
    ((r.add n d).remove n).2 = true ∧
    n ∉ ((r.add n d).remove n).1.allNames ∧
    (r.remove n).2 = false := by
  obtain ⟨hrt, hfc, hbl⟩ := (get_eq_none_iff r n).mp h
  have hlrt : List.lookup n (r.add n d).runtime = some d := by
    simp [Registry.add, List.lookup_cons]
  have hrm : (r.add n d).remove n =
      ({ r.add n d with runtime := eraseKey n (r.add n d).runtime }, true) := by
    rw [Registry.remove, if_pos (by rw [hlrt]; rfl)]
  rw [hrm]
  refine ⟨?_, rfl, ?_, ?_⟩
  · rw [get_eq_none_iff]
    refine ⟨?_, hfc, hbl⟩
    rw [eraseKey_add_runtime, eraseKey]
    exact lookup_filter_ne n r.runtime
  · intro hmem
    simp only [Registry.allNames, List.mem_dedup, List.map_append,
      List.mem_append, List.mem_map] at hmem
    rcases hmem with (⟨p, hp, hpn⟩ | ⟨p, hp, hpn⟩) | ⟨p, hp, hpn⟩
    · rw [eraseKey_add_runtime, eraseKey] at hp
      have := List.mem_filter.mp hp
      simp only [Bool.not_eq_eq_eq_not, Bool.not_true,
        decide_eq_false_iff_not] at this
      exact this.2 hpn
    · exact (lookup_eq_none_iff n r.fileCfg).mp hfc p hp hpn
    · exact (lookup_eq_none_iff n r.builtin).mp hbl p hp hpn
  · rw [Registry.remove, if_neg (by rw [hrt]; simp),
      if_neg (by rw [hfc]; simp), if_neg (by rw [hbl]; simp)]

/-- Witness for C8 at the empty registry. -/
theorem add_remove_restores_not_found_witness :
    ((Registry.add ⟨[], [], []⟩ "m" ⟨"org/m", "x", none⟩).remove "m").1.get "m" =
        none ∧
    (Registry.remove ⟨[], [], []⟩ "m").2 = false := by
  have h := add_remove_restores_not_found ⟨[], [], []⟩ "m"
    ⟨"org/m", "x", none⟩ (by decide)
  exact ⟨h.1, h.2.2.2⟩

theorem totalBytes_applyWrite_le (fs : List (String × Nat)) (e : WriteEvent) :
    totalBytes fs ≤ totalBytes (applyWrite fs e) := by
  rw [applyWrite]
  split
  · rw [totalBytes, totalBytes, List.map_map]
    apply List.sum_le_sum
    intro p hp
    by_cases hpe : p.1 = e.path <;> simp [hpe]
  · rw [totalBytes, totalBytes, List.map_cons, List.sum_cons]
    exact Nat.le_add_left _ _

theorem totalBytes_run_le (fs : List (String × Nat)) (es : List WriteEvent) :
    totalBytes fs ≤ totalBytes (runOrchestrator fs es) := by
  induction es generalizing fs with
  | nil => exact le_refl _
  | cons e t ih =>
    rw [runOrchestrator, List.foldl_cons]
    exact le_trans (totalBytes_applyWrite_le fs e) (ih _)

/-- C7: within a single orchestrator run the on-disk byte count is
monotonically non-decreasing — after any prefix of the run's writes the
total is at least the total after any shorter prefix, and in particular it
never drops below the initial N bytes already present. -/
theorem orchestrator_monotone_bytes (fs : List (String × Nat))
    (es : List WriteEvent) :
    totalBytes fs ≤ totalBytes (runOrchestrator fs es) ∧
    (∀ i j, i ≤ j →
      totalBytes (runOrchestrator fs (es.take i)) ≤
        totalBytes (runOrchestrator fs (es.take j))) := by
  refine ⟨totalBytes_run_le fs es, ?_⟩
  intro i j hij
  have h1 : es.take j = es.take i ++ (es.take j).drop i := by
    conv_lhs => rw [← List.take_append_drop i (es.take j)]
    rw [List.take_take, min_eq_left hij]
  rw [h1]
  simp only [runOrchestrator, List.foldl_append]
  exact totalBytes_run_le _ _

/-- Witness for C7 at a concrete partial download. -/
theorem orchestrator_monotone_bytes_witness :
    totalBytes [("a.bin", 5)] ≤
      totalBytes (runOrchestrator [("a.bin", 5)] [⟨"a.bin", 3⟩, ⟨"b.bin", 7⟩]) ∧
    totalBytes (runOrchestrator [("a.bin", 5)]
        ([(⟨"a.bin", 3⟩ : WriteEvent), ⟨"b.bin", 7⟩].take 1)) ≤
      totalBytes (runOrchestrator [("a.bin", 5)]
        ([(⟨"a.bin", 3⟩ : WriteEvent), ⟨"b.bin", 7⟩].take 2)) := by
  have h := orchestrator_monotone_bytes [("a.bin", 5)] [⟨"a.bin", 3⟩, ⟨"b.bin", 7⟩]
  exact ⟨h.1, h.2 1 2 (by decide)⟩

end OllamaDiffuser
